import Mathlib

/-!
Verification of the Active Memory Manager (AMM) specification against the
repository `distributed`.

The repository snapshot contains `distributed/tests/test_active_memory_manager.py`
and `distributed/deploy/cluster.py`.  The AMM core
(`distributed/active_memory_manager.py`) is absent from the snapshot, so its
data model and arbiter are modelled here from the specification, with the
behaviour pinned down by the repository's own test-suite wherever the tests
exercise it.  `deploy/cluster.py` is present and is embedded directly.
-/

namespace AMM

/-- Worker status, from the spec's worker snapshot
`status in (running, paused, closing_gracefully, closed)`. -/
inductive WStatus where
  | running
  | paused
  | closing_gracefully
  | closed
deriving DecidableEq

/-- Modelled from the spec: worker snapshot `W` of the missing
`active_memory_manager.py`: address; status; `optimistic` memory projection;
`processing`: the keys currently being processed on this worker (needed as
inputs by executing tasks).  `has_what` is derived from the task snapshots. -/
structure Worker where
  address : Nat
  status : WStatus
  optimistic : Nat
  processing : List Nat
deriving DecidableEq

/-- Coarse task state; only `memory` is droppable/replicable. -/
inductive TState where
  | memory
  | processing
  | released
deriving DecidableEq

/-- Modelled from the spec: task snapshot `T` of the missing
`active_memory_manager.py`: key, coarse state, `who_has` (addresses of the
workers holding the replica), `waiters` (keys of unfinished dependents),
size in bytes. -/
structure Task where
  key : Nat
  state : TState
  who_has : List Nat
  waiters : List Nat
  nbytes : Nat
deriving DecidableEq

/-- Read-only scheduler snapshot as seen by the AMM: workers and tasks. -/
structure Cluster where
  workers : List Worker
  tasks : List Task
deriving DecidableEq

def findWorker (cl : Cluster) (a : Nat) : Option Worker :=
  cl.workers.find? (fun w => w.address = a)

def findTask (cl : Cluster) (k : Nat) : Option Task :=
  cl.tasks.find? (fun ts => ts.key = k)

/-- A worker address refers to a worker with status `running`. -/
def isRunningW (cl : Cluster) (a : Nat) : Bool :=
  match findWorker cl a with
  | some w => w.status = WStatus.running
  | none => false

/-- A worker address refers to a paused or retiring (`closing_gracefully`)
worker; the spec's `paused_or_retiring` partition class. -/
def pausedOrRetiringW (cl : Cluster) (a : Nat) : Bool :=
  match findWorker cl a with
  | some w => w.status = WStatus.paused || w.status = WStatus.closing_gracefully
  | none => false

/-- The `optimistic` memory measure of the worker at address `a`. -/
def optimisticOf (cl : Cluster) (a : Nat) : Nat :=
  match findWorker cl a with
  | some w => w.optimistic
  | none => 0

/-- The worker at address `a` is currently processing an unfinished dependent
of `ts` (the spec's `with_waiters` holders). -/
def hasWaiterOn (cl : Cluster) (ts : Task) (a : Nat) : Bool :=
  match findWorker cl a with
  | some w => ts.waiters.any (fun k => decide (k ∈ w.processing))
  | none => false

/-- Per-task transaction entry: `pending_add` and `pending_remove`. -/
structure TaskTrans where
  padd : List Nat
  prem : List Nat
deriving DecidableEq

/-- The per-tick transaction `X`, task key to pending sets. -/
def Trans : Type := Nat → TaskTrans

def emptyTT : TaskTrans := ⟨[], []⟩

def emptyTrans : Trans := fun _ => emptyTT

def updTrans (tr : Trans) (k : Nat) (t : TaskTrans) : Trans :=
  fun k' => if k' = k then t else tr k'

/-- Suggestion op. -/
inductive Op where
  | drop
  | replicate
deriving DecidableEq

/-- A policy suggestion `(op, task, candidates)`; `candidates = none` means
"pick any eligible worker", `some []` is the explicit "do nothing" signal. -/
structure Suggestion where
  op : Op
  key : Nat
  candidates : Option (List Nat)
deriving DecidableEq

/-- Arbiter decision on one suggestion.  A rejection carries the logged
reason, or `none` when the rejection is silent. -/
inductive Decision where
  | accept (addr : Nat)
  | reject (reason : Option String)
deriving DecidableEq

def Decision.isAccept : Decision → Bool
  | .accept _ => true
  | .reject _ => false

/-- Current holders of `ts` net of this tick's pending removals:
`who_has \ pending_remove`.  Drop targets are selected from this set
(spec I5: drop targets must lie in the current holder set). -/
def curHolders (ts : Task) (tt : TaskTrans) : List Nat :=
  ts.who_has.filter (fun a => decide (a ∉ tt.prem))

/-- Effective replica set `who_has ∪ pending_add \ pending_remove` (the
arbiter never lets a recipient into `pending_add` while it holds a replica,
so the union is the disjoint append). -/
def effective (ts : Task) (tt : TaskTrans) : List Nat :=
  curHolders ts tt ++ tt.padd.filter (fun a => decide (a ∉ ts.who_has))

/-- Candidate pool for a drop: `candidates ∩ H` when candidates is a set,
else `H`, where `H` is the current holder set. -/
def dropPool (ts : Task) (cands : Option (List Nat)) (tt : TaskTrans) : List Nat :=
  match cands with
  | none => curHolders ts tt
  | some cs => cs.filter (fun a => decide (a ∈ curHolders ts tt))

/-- The drop pool with the holders currently processing an unfinished
dependent of the task removed: such a holder is actively using the replica
and is never an eligible drop source (pinned by test_drop_with_waiter and
test_drop_with_bad_candidates). -/
def dropPoolNW (cl : Cluster) (ts : Task) (cands : Option (List Nat))
    (tt : TaskTrans) : List Nat :=
  (dropPool ts cands tt).filter (fun a => !hasWaiterOn cl ts a)

/-- The eligible drop sources: additionally, a running holder may only be
dropped when another running holder remains among the current holders
(pinned by test_drop_with_paused_workers_with_running_tasks_1/3/5). -/
def dropPoolSafe (cl : Cluster) (ts : Task) (cands : Option (List Nat))
    (tt : TaskTrans) : List Nat :=
  (dropPoolNW cl ts cands tt).filter (fun a =>
    !isRunningW cl a
      || (curHolders ts tt).any (fun b => decide (b ≠ a) && isRunningW cl b))

/-- Drop-priority rank of a worker: paused/retiring workers are preferred
drop sources. -/
def pRank (cl : Cluster) (a : Nat) : Nat :=
  if pausedOrRetiringW cl a then 1 else 0

/-- Strict "is a better drop victim" ordering: prefer paused/retiring
workers, then the highest `optimistic` memory usage (least free memory),
ties broken by the lower address (spec item 5: deterministic order). -/
def dropBetter (cl : Cluster) (a b : Nat) : Bool :=
  (pRank cl b > pRank cl a)
    || (pRank cl b = pRank cl a && optimisticOf cl b > optimisticOf cl a)
    || (pRank cl b = pRank cl a && optimisticOf cl b = optimisticOf cl a && b < a)

/-- Strict "is a better replication recipient" ordering: the lowest
`optimistic` memory (most free memory), ties broken by the lower address. -/
def replBetter (cl : Cluster) (a b : Nat) : Bool :=
  (optimisticOf cl b < optimisticOf cl a)
    || (optimisticOf cl b = optimisticOf cl a && b < a)

/-- Fold selecting the best element under a strict preference `better`. -/
def pickFrom (better : Nat → Nat → Bool) : Nat → List Nat → Nat
  | a, [] => a
  | a, b :: l => pickFrom better (if better a b then b else a) l

/-- A strict preference derived from a total comparison: irreflexive, and
negatively transitive in the two forms the fold argument needs. -/
structure GoodPref (better : Nat → Nat → Bool) : Prop where
  irrefl : ∀ x, better x x = false
  trans1 : ∀ r a b, better r b = false → better a b = true → better r a = false
  trans2 : ∀ r a b, better a b = false → better r a = false → better r b = false

/-- Modelled from the spec: the drop branch of the missing
`ActiveMemoryManagerExtension._find_dropper`.
Order of checks, following spec section 4.2 with the behaviour pinned by the
repository's tests:
1. only tasks in state `memory` are eligible (the spec's reason taxonomy
   names no reason for this gate, so the rejection is silent);
2. pool := `candidates ∩ H` (or `H` for nil candidates); empty pool is a
   silent rejection for the explicit empty candidate set, logged otherwise;
3. never drop below two current replicas ("less than 2 replicas exist");
4. holders currently processing an unfinished dependent of the task are not
   eligible drop sources ("waiters would be stranded") - pinned by
   test_drop_with_waiter and test_drop_with_bad_candidates;
5. a running holder may only be dropped when another running holder remains
   ("no eligible holder") - pinned by
   test_drop_with_paused_workers_with_running_tasks_1/3/5, which reject the
   spec's literal R-drop reading;
6. among the survivors prefer paused/retiring workers, then the holder with
   the least free memory (highest `optimistic`). -/
def find_dropper (cl : Cluster) (ts : Task) (cands : Option (List Nat))
    (tt : TaskTrans) : Decision :=
  if ts.state ≠ TState.memory then Decision.reject none
  else
    match dropPool ts cands tt with
    | [] =>
      Decision.reject
        (match cands with
         | none => some "no eligible holder"
         | some [] => none
         | some (_ :: _) => some "no candidate holds the key")
    | _ :: _ =>
      if (curHolders ts tt).length < 2 then
        Decision.reject (some "less than 2 replicas exist")
      else
        match dropPoolNW cl ts cands tt with
        | [] => Decision.reject (some "waiters would be stranded")
        | _ :: _ =>
          match dropPoolSafe cl ts cands tt with
          | [] => Decision.reject (some "no eligible holder")
          | a :: l => Decision.accept (pickFrom (dropBetter cl) a l)

/-- Candidate pool for a replication: `(candidates if set else all_workers)`
minus the workers already holding the replica or in `pending_add` (spec I4),
filtered to status `running` (spec I6). -/
def replPool (cl : Cluster) (ts : Task) (cands : Option (List Nat))
    (tt : TaskTrans) : List Nat :=
  let base : List Nat := match cands with
    | none => cl.workers.map (fun w => w.address)
    | some cs => cs
  base.filter (fun a =>
    decide (a ∉ ts.who_has) && decide (a ∉ tt.padd) && isRunningW cl a)

/-- Modelled from the spec: the replicate branch of the missing
`ActiveMemoryManagerExtension._find_recipient`: tasks not in `memory` are
rejected; the pool excludes holders and pending additions and keeps only
running workers; an empty pool is rejected (silently for the explicit empty
candidate set); the recipient is the pool worker with the most free memory
(lowest `optimistic`). -/
def find_recipient (cl : Cluster) (ts : Task) (cands : Option (List Nat))
    (tt : TaskTrans) : Decision :=
  if ts.state ≠ TState.memory then Decision.reject none
  else
    match replPool cl ts cands tt with
    | [] =>
      Decision.reject
        (match cands with
         | none => some "all recipients paused"
         | some [] => none
         | some _ => some "all candidates hold the key")
    | a :: l => Decision.accept (pickFrom (replBetter cl) a l)

/-- Modelled from the spec: arbiter processing of one suggestion
(section 4.2): dispatch on the op, record an accepted worker in the per-task
transaction. -/
def processSuggestion (cl : Cluster) (tr : Trans) (s : Suggestion) :
    Trans × Decision :=
  match findTask cl s.key with
  | none => (tr, Decision.reject (some "unknown task"))
  | some ts =>
    match s.op with
    | Op.drop =>
      match find_dropper cl ts s.candidates (tr s.key) with
      | Decision.accept a =>
          (updTrans tr s.key ⟨(tr s.key).padd, a :: (tr s.key).prem⟩, Decision.accept a)
      | d => (tr, d)
    | Op.replicate =>
      match find_recipient cl ts s.candidates (tr s.key) with
      | Decision.accept a =>
          (updTrans tr s.key ⟨a :: (tr s.key).padd, (tr s.key).prem⟩, Decision.accept a)
      | d => (tr, d)

/-- Process a stream of suggestions, threading the transaction, and return
the final transaction with the decision trace. -/
def runSuggs (cl : Cluster) : Trans → List Suggestion → Trans × List Decision
  | tr, [] => (tr, [])
  | tr, s :: ss =>
    let p := processSuggestion cl tr s
    let q := runSuggs cl p.1 ss
    (q.1, p.2 :: q.2)

/-- One tick of the arbiter from an empty transaction: the transaction. -/
def run_once (cl : Cluster) (ss : List Suggestion) : Trans :=
  (runSuggs cl emptyTrans ss).1

/-- One tick of the arbiter from an empty transaction: the decisions. -/
def decisionsOf (cl : Cluster) (ss : List Suggestion) : List Decision :=
  (runSuggs cl emptyTrans ss).2

/-- Enactment of a per-task transaction: the worker-side effect of the
dispatched `acquire-replicas` and `remove-replicas` RPCs once they all land:
the task is then held by its effective replica set. -/
def enactTask (ts : Task) (tt : TaskTrans) : Task :=
  { ts with who_has := effective ts tt }

/-- Enact a whole transaction on the snapshot. -/
def enact (cl : Cluster) (tr : Trans) : Cluster :=
  { cl with tasks := cl.tasks.map (fun ts => enactTask ts (tr ts.key)) }

/-- A policy pass: policies read the live scheduler state and produce a
finite sequence of suggestions. -/
def Policy : Type := Cluster → List Suggestion

/-- One full tick followed by the enactment of its transaction. -/
def tickEnact (pol : Policy) (cl : Cluster) : Cluster :=
  enact cl (run_once cl (pol cl))

/-- Iterated ticks (the periodic timer). -/
def iterTick (pol : Policy) : Nat → Cluster → Cluster
  | 0, cl => cl
  | n + 1, cl => iterTick pol n (tickEnact pol cl)

/-- Snapshot wellformedness: `who_has` is a set (no duplicate holders). -/
def Wf (cl : Cluster) : Prop :=
  (cl.tasks.map (fun ts => ts.key)).Nodup ∧ ∀ ts ∈ cl.tasks, ts.who_has.Nodup

instance (cl : Cluster) : Decidable (Wf cl) := by
  unfold Wf
  exact inferInstance

/-- The cluster snapshot invariant carried across ticks: wellformed, and
every task still has at least one replica. -/
def GoodCl (cl : Cluster) : Prop :=
  Wf cl ∧ ∀ ts ∈ cl.tasks, ts.who_has ≠ []

instance (cl : Cluster) : Decidable (GoodCl cl) := by
  unfold GoodCl
  exact inferInstance

/-- Keys of the tasks a worker holds (the scheduler-side `has_what`). -/
def hasWhat (cl : Cluster) (a : Nat) : List Nat :=
  (cl.tasks.filter (fun ts => decide (a ∈ ts.who_has))).map (fun ts => ts.key)

/-- Set the status of the worker at address `a`. -/
def setStatus (cl : Cluster) (a : Nat) (st : WStatus) : Cluster :=
  { cl with
    workers := cl.workers.map (fun w =>
      if w.address = a then { w with status := st } else w) }

/-- Status of the worker at address `a`, if it exists. -/
def statusOf (cl : Cluster) (a : Nat) : Option WStatus :=
  (findWorker cl a).map (fun w => w.status)

/-- Some worker of the snapshot has address `a`. -/
def AddrIn (cl : Cluster) (a : Nat) : Prop :=
  a ∈ cl.workers.map (fun w => w.address)

instance (cl : Cluster) (a : Nat) : Decidable (AddrIn cl a) := by
  unfold AddrIn
  exact inferInstance

/-- Modelled from the spec: the per-run suggestions of the missing
`RetireWorker` policy (spec section 4.3): for every key held by the target,
emit a drop restricted to the target when the key has replicas elsewhere on
running workers; otherwise emit a replicate to any running worker together
with the drop (the drop is rejected until the replication has landed). -/
def retireSuggs (cl : Cluster) (target : Nat) : List Suggestion :=
  (cl.tasks.filter (fun ts => decide (target ∈ ts.who_has))).foldr
    (fun ts acc =>
      (if ts.who_has.any (fun b => decide (b ≠ target) && isRunningW cl b) then
        [⟨Op.drop, ts.key, some [target]⟩]
      else
        [⟨Op.replicate, ts.key, none⟩, ⟨Op.drop, ts.key, some [target]⟩]) ++ acc)
    []

/-- One AMM tick driven by the RetireWorker policies of all targets, with
its transaction enacted. -/
def retireTick (addrs : List Nat) (cl : Cluster) : Cluster :=
  enact cl (run_once cl (addrs.foldr (fun a acc => retireSuggs cl a ++ acc) []))

/-- Iterated retirement ticks. -/
def retireLoop (addrs : List Nat) : Nat → Cluster → Cluster
  | 0, cl => cl
  | n + 1, cl => retireLoop addrs n (retireTick addrs cl)

/-- Result of the retirement workflow: the final snapshot, the addresses
that actually retired, and the RetireWorker policies still installed. -/
structure RetireResult where
  cluster : Cluster
  retired : List Nat
  policies : List Nat
deriving DecidableEq

/-- Modelled from the spec: the missing `retire_workers` workflow (spec
section 4.5): mark every target `closing_gracefully` and install its
RetireWorker policy; run AMM ticks; a target that drained (`has_what = ∅`)
retired - its policy is removed and, when `remove` is set, the worker is
deregistered; a target that could not be drained gives up - its status is
restored to `running` and its policy is removed.  The returned set is the
subset of the input that actually retired. -/
def retireMark (cl : Cluster) (addrs : List Nat) : Cluster :=
  addrs.foldl (fun c a => setStatus c a WStatus.closing_gracefully) cl

def retireDrained (cl : Cluster) (addrs : List Nat) (fuel : Nat) : Cluster :=
  retireLoop addrs fuel (retireMark cl addrs)

def retire_workers (cl : Cluster) (addrs : List Nat) (rm : Bool)
    (fuel : Nat) : RetireResult :=
  let cl2 := retireDrained cl addrs fuel
  let retired := addrs.filter (fun a => decide (hasWhat cl2 a = []))
  let failed := addrs.filter (fun a => decide (hasWhat cl2 a ≠ []))
  let cl3 := failed.foldl (fun c a => setStatus c a WStatus.running) cl2
  let cl4 :=
    if rm then
      { cl3 with workers := cl3.workers.filter (fun w => decide (w.address ∉ retired)) }
    else cl3
  let stillInstalled :=
    (addrs.filter (fun a => decide (a ∉ retired))).filter (fun a => decide (a ∉ failed))
  ⟨cl4, retired, stillInstalled⟩

/-- Modelled from the spec: lifecycle state of the missing
`ActiveMemoryManagerExtension`: whether it is running and how many periodic
tick callbacks are installed. -/
structure Manager where
  running : Bool
  interval : Nat
  installed_ticks : Nat
deriving DecidableEq

/-- Modelled from the spec: `ActiveMemoryManagerExtension.start`:
idempotent; schedules the periodic tick. -/
def Manager.start (m : Manager) : Manager :=
  if m.running then m
  else { m with running := true, installed_ticks := m.installed_ticks + 1 }

/-- Modelled from the spec: `ActiveMemoryManagerExtension.stop`: idempotent;
cancels the periodic tick. -/
def Manager.stop (m : Manager) : Manager :=
  if m.running then { m with running := false, installed_ticks := m.installed_ticks - 1 }
  else m

/-- What the periodic timer does on one beat: a full tick when the manager
is running, nothing otherwise. -/
def periodicStep (m : Manager) (pol : Policy) (cl : Cluster) : Cluster :=
  if m.running then tickEnact pol cl else cl

/-- An argument handed to `add_policy`: either an actual policy object or
any other value. -/
inductive PolicyArg where
  | policy (p : Policy)
  | notPolicy (txt : String)

/-- The manager's live policy set. -/
structure ManagerP where
  policies : List Policy

/-- Modelled from the spec: `ActiveMemoryManagerExtension.add_policy`: a
non-policy argument is a programming error surfaced as a typed error
(`TypeError`), raised before the argument is ever run; a policy is appended
to the live policy set. -/
def add_policy (m : ManagerP) (arg : PolicyArg) : Except String ManagerP :=
  match arg with
  | PolicyArg.policy p => Except.ok ⟨m.policies ++ [p]⟩
  | PolicyArg.notPolicy _ => Except.error "TypeError"

/-! Concrete scenario snapshots, taken from the repository's test-suite. -/

/-- The task of the two-replica DemoPolicy scenario (test_double_drop_stress):
`x` scattered to both workers. -/
def demoTask : Task := ⟨100, TState.memory, [1, 2], [], 8⟩

/-- Two running workers both holding `x` (test_drop / test_double_drop_stress). -/
def demoCl : Cluster :=
  ⟨[⟨1, WStatus.running, 10, []⟩, ⟨2, WStatus.running, 20, []⟩], [demoTask]⟩

/-- DemoPolicy(action=drop, key=x, n=10, candidates=None): ten nil-candidate
drop suggestions for the task, read from the live snapshot. -/
def demoPol : Policy := fun cl =>
  (cl.tasks.filter (fun ts => decide (ts.key = 100))).foldr
    (fun ts acc => List.replicate 10 ⟨Op.drop, ts.key, none⟩ ++ acc) []

/-- The snapshot after one DemoPolicy tick has been enacted. -/
def demoTick1 : Cluster := tickEnact demoPol demoCl

/-- Task `x` held by four workers (test_drop with n=5). -/
def c5Task : Task := ⟨100, TState.memory, [1, 2, 3, 4], [], 8⟩

/-- Four running workers all holding `x` (test_drop). -/
def c5Cl : Cluster :=
  ⟨[⟨1, WStatus.running, 10, []⟩, ⟨2, WStatus.running, 20, []⟩,
    ⟨3, WStatus.running, 30, []⟩, ⟨4, WStatus.running, 40, []⟩], [c5Task]⟩

/-- Task `x` on workers 1 and 2 with unfinished dependent `y2` (key 202)
still processing on worker 2 only: test_drop_with_waiter after `y1`
finished. -/
def dwTask : Task := ⟨100, TState.memory, [1, 2], [202], 8⟩

/-- The two workers of test_drop_with_waiter after `y1` finished: worker 2
is executing the remaining dependent. -/
def dwCl : Cluster :=
  ⟨[⟨1, WStatus.running, 10, []⟩, ⟨2, WStatus.running, 10, [202]⟩], [dwTask]⟩

/-- Task `x` of test_drop_with_paused_workers_with_running_tasks_5: three
holders, dependents 201 and 202 processing on workers 1 and 3. -/
def uc5Task : Task := ⟨100, TState.memory, [1, 2, 3], [201, 202], 8⟩

/-- test_drop_with_paused_workers_with_running_tasks_5: worker 1 paused and
executing a dependent, worker 2 running and free, worker 3 running and
executing a dependent. -/
def uc5Cl : Cluster :=
  ⟨[⟨1, WStatus.paused, 10, [201]⟩, ⟨2, WStatus.running, 10, []⟩,
    ⟨3, WStatus.running, 10, [202]⟩], [uc5Task]⟩

/-- Task `x` with a single replica (test_replicate_to_worker_with_most_free_memory). -/
def repTask : Task := ⟨100, TState.memory, [1], [], 8⟩

/-- test_replicate_to_worker_with_most_free_memory: worker 1 holds `x`,
workers 2 and 4 are clogged with 512 MiB, worker 3 is free. -/
def repCl : Cluster :=
  ⟨[⟨1, WStatus.running, 10, []⟩, ⟨2, WStatus.running, 600, []⟩,
    ⟨3, WStatus.running, 10, []⟩, ⟨4, WStatus.running, 600, []⟩], [repTask]⟩

/-- test_RetireWorker_no_recipients: worker 1 empty, worker 2 with unique
`x` (key 10), workers 3 and 4 sharing `y` (key 11); all four retired at
once. -/
def retACl : Cluster :=
  ⟨[⟨1, WStatus.running, 10, []⟩, ⟨2, WStatus.running, 20, []⟩,
    ⟨3, WStatus.running, 30, []⟩, ⟨4, WStatus.running, 40, []⟩],
   [⟨10, TState.memory, [2], [], 8⟩, ⟨11, TState.memory, [3, 4], [], 8⟩]⟩

/-- test_RetireWorker_all_recipients_are_paused: worker 1 holds `x`
(key 10), the only other worker is paused. -/
def retBCl : Cluster :=
  ⟨[⟨1, WStatus.running, 10, []⟩, ⟨2, WStatus.paused, 0, []⟩],
   [⟨10, TState.memory, [1], [], 8⟩]⟩

/-- A two-worker snapshot used for the explicit empty-candidate-set
scenarios (test_drop_with_empty_candidates, test_replicate_with_empty_candidates). -/
def c7Task : Task := ⟨100, TState.memory, [1, 2], [], 8⟩

/-- Two running workers holding `x` (test_drop_with_empty_candidates). -/
def c7Cl : Cluster :=
  ⟨[⟨1, WStatus.running, 10, []⟩, ⟨2, WStatus.running, 20, []⟩], [c7Task]⟩

end AMM

namespace Deploy

/-- The `distributed.core.Status` values used by `deploy/cluster.py`. -/
inductive Status where
  | created
  | running
  | closing
  | closed
deriving DecidableEq

/-- State of `distributed.deploy.cluster.Cluster` relevant to shutdown
(cluster.py): the lifecycle `status` plus the open/running flags of the
resources `_close` tears down (`_adaptive`, `_watch_worker_status_comm`,
`_watch_worker_status_task`, `_sync_cluster_info_task`, `scheduler_comm`,
`periodic_callbacks`). -/
structure Cluster where
  status : Status
  asynchronous : Bool
  adaptive_running : Bool
  watch_comm_open : Bool
  watch_task_active : Bool
  sync_task_active : Bool
  rpc_open : Bool
  pcs_running : Bool
deriving DecidableEq

/-- Method `Cluster._close` (cluster.py lines 158-183): return immediately when the
status is already `closed`; otherwise set status to `closing`, stop the
adaptive callback, close the worker-status comm, await its task, cancel the
cluster-info sync task, close the scheduler rpc, stop the periodic
callbacks, and finish with status `closed`. -/
def close_seq (c : Cluster) : Cluster :=
  if c.status = Status.closed then c
  else
    { c with
      status := Status.closed
      adaptive_running := false
      watch_comm_open := false
      watch_task_active := false
      sync_task_active := false
      rpc_open := false
      pcs_running := false }

/-- Method `Cluster.close` (cluster.py lines 185-194): if the cluster is already
closed, return immediately (a `NoOpAwaitable` in async mode, `None`
otherwise); else run `_close` through `sync`.  The boolean records whether
the shutdown sequence was run. -/
def close (c : Cluster) : Cluster × Bool :=
  if c.status = Status.closed then (c, false)
  else (close_seq c, true)

end Deploy

namespace AMM

/-! Basic facts about the selection fold `pickFrom`. -/

theorem pickFrom_mem (better : Nat → Nat → Bool) :
    ∀ (l : List Nat) (a : Nat), pickFrom better a l ∈ a :: l := by
  intro l
  induction l with
  | nil => intro a; simp [pickFrom]
  | cons b l ih =>
    intro a
    simp only [pickFrom]
    by_cases hb : better a b = true
    · rw [if_pos hb]
      rcases List.mem_cons.mp (ih b) with h | h
      · simp [h]
      · simp [List.mem_cons, h]
    · rw [if_neg hb]
      rcases List.mem_cons.mp (ih a) with h | h
      · simp [h]
      · simp [List.mem_cons, h]

theorem pickFrom_best {better : Nat → Nat → Bool} (hg : GoodPref better) :
    ∀ (l : List Nat) (a : Nat), ∀ x ∈ a :: l, better (pickFrom better a l) x = false := by
  intro l
  induction l with
  | nil =>
    intro a x hx
    rcases List.mem_cons.mp hx with h | h
    · rw [h]; simpa [pickFrom] using hg.irrefl a
    · simp at h
  | cons b l ih =>
    intro a x hx
    simp only [pickFrom]
    by_cases hb : better a b = true
    · rw [if_pos hb]
      rcases List.mem_cons.mp hx with h | h
      · rw [h]
        exact hg.trans1 _ _ _ (ih b b (List.mem_cons_self b l)) hb
      · rcases List.mem_cons.mp h with h | h
        · rw [h]; exact ih b b (List.mem_cons_self b l)
        · exact ih b x (List.mem_cons.mpr (Or.inr h))
    · rw [if_neg hb]
      rcases List.mem_cons.mp hx with h | h
      · rw [h]; exact ih a a (List.mem_cons_self a l)
      · rcases List.mem_cons.mp h with h | h
        · rw [h]
          have h1 : better a b = false := by simpa using hb
          exact hg.trans2 _ _ _ h1 (ih a a (List.mem_cons_self a l))
        · exact ih a x (List.mem_cons.mpr (Or.inr h))

theorem dropBetter_good (cl : Cluster) : GoodPref (dropBetter cl) := by
  constructor
  · intro x
    simp [dropBetter]
  · intro r a b h1 h2
    simp only [dropBetter, Bool.or_eq_true, Bool.or_eq_false_iff, Bool.and_eq_true,
      Bool.and_eq_false_iff, decide_eq_true_eq, decide_eq_false_iff_not] at h1 h2 ⊢
    omega
  · intro r a b h1 h2
    simp only [dropBetter, Bool.or_eq_true, Bool.or_eq_false_iff, Bool.and_eq_true,
      Bool.and_eq_false_iff, decide_eq_true_eq, decide_eq_false_iff_not] at h1 h2 ⊢
    omega

theorem replBetter_good (cl : Cluster) : GoodPref (replBetter cl) := by
  constructor
  · intro x
    simp [replBetter]
  · intro r a b h1 h2
    simp only [replBetter, Bool.or_eq_true, Bool.or_eq_false_iff, Bool.and_eq_true,
      Bool.and_eq_false_iff, decide_eq_true_eq, decide_eq_false_iff_not] at h1 h2 ⊢
    omega
  · intro r a b h1 h2
    simp only [replBetter, Bool.or_eq_true, Bool.or_eq_false_iff, Bool.and_eq_true,
      Bool.and_eq_false_iff, decide_eq_true_eq, decide_eq_false_iff_not] at h1 h2 ⊢
    omega

end AMM

namespace AMM

/-! Pool membership facts. -/

theorem curHolders_emptyTT (ts : Task) : curHolders ts emptyTT = ts.who_has := by
  simp [curHolders, emptyTT]

theorem mem_curHolders {ts : Task} {tt : TaskTrans} {a : Nat}
    (h : a ∈ curHolders ts tt) : a ∈ ts.who_has ∧ a ∉ tt.prem := by
  have := List.mem_filter.mp h
  simpa using this

theorem curHolders_nodup {ts : Task} {tt : TaskTrans} (h : ts.who_has.Nodup) :
    (curHolders ts tt).Nodup := h.filter _

theorem curHolders_prem_cons (ts : Task) (p q : List Nat) (prem : List Nat) (a : Nat) :
    curHolders ts ⟨p, a :: prem⟩
      = (curHolders ts ⟨q, prem⟩).filter (fun x => decide (x ≠ a)) := by
  unfold curHolders
  rw [List.filter_filter]
  apply List.filter_congr
  intro x _
  simp [List.mem_cons, not_or, Bool.and_comm]

theorem filter_ne_length {l : List Nat} {a : Nat} (hnd : l.Nodup) (ha : a ∈ l) :
    (l.filter (fun x => decide (x ≠ a))).length = l.length - 1 := by
  induction l with
  | nil => simp at ha
  | cons b l ih =>
    rcases List.nodup_cons.mp hnd with ⟨hb, hl⟩
    by_cases hba : b = a
    · subst hba
      have : ∀ x ∈ l, decide (x ≠ b) = true := by
        intro x hx
        simp only [decide_eq_true_eq]
        intro hxa; exact hb (hxa ▸ hx)
      simp [List.filter_cons, List.filter_eq_self.mpr this]
      intro a hal hab
      exact hb (hab ▸ hal)
    · have ha' : a ∈ l := by
        rcases List.mem_cons.mp ha with h | h
        · exact absurd h.symm hba
        · exact h
      have hlen : 1 ≤ l.length := List.length_pos.mpr (List.ne_nil_of_mem ha')
      simp only [List.filter_cons, decide_eq_true_eq]
      rw [if_pos (by simpa using hba)]
      simp only [List.length_cons, ih hl ha']
      omega

theorem mem_dropPool {ts : Task} {cands : Option (List Nat)} {tt : TaskTrans} {a : Nat}
    (h : a ∈ dropPool ts cands tt) : a ∈ curHolders ts tt := by
  unfold dropPool at h
  match cands with
  | none => exact h
  | some cs => simpa using (List.mem_filter.mp h).2

theorem mem_dropPoolNW {cl : Cluster} {ts : Task} {cands : Option (List Nat)}
    {tt : TaskTrans} {a : Nat} (h : a ∈ dropPoolNW cl ts cands tt) :
    a ∈ dropPool ts cands tt ∧ hasWaiterOn cl ts a = false := by
  have := List.mem_filter.mp h
  simpa using this

theorem mem_dropPoolSafe {cl : Cluster} {ts : Task} {cands : Option (List Nat)}
    {tt : TaskTrans} {a : Nat} (h : a ∈ dropPoolSafe cl ts cands tt) :
    a ∈ curHolders ts tt ∧ hasWaiterOn cl ts a = false ∧
      (isRunningW cl a = true →
        ∃ b ∈ curHolders ts tt, b ≠ a ∧ isRunningW cl b = true) := by
  have h2 := List.mem_filter.mp h
  rcases mem_dropPoolNW h2.1 with ⟨hp, hw⟩
  refine ⟨mem_dropPool hp, hw, ?_⟩
  intro hrun
  have h3 := h2.2
  rw [hrun] at h3
  simp only [Bool.not_true, Bool.false_or, List.any_eq_true, Bool.and_eq_true,
    decide_eq_true_eq] at h3
  rcases h3 with ⟨b, hb, hba, hbr⟩
  exact ⟨b, hb, hba, hbr⟩

theorem mem_replPool {cl : Cluster} {ts : Task} {cands : Option (List Nat)}
    {tt : TaskTrans} {a : Nat} (h : a ∈ replPool cl ts cands tt) :
    a ∉ ts.who_has ∧ a ∉ tt.padd ∧ isRunningW cl a = true := by
  unfold replPool at h
  have := (List.mem_filter.mp h).2
  simp only [Bool.and_eq_true, decide_eq_true_eq] at this
  exact ⟨this.1.1, this.1.2, this.2⟩

/-! Characterisation of accepted suggestions. -/

theorem find_dropper_accept {cl : Cluster} {ts : Task} {cands : Option (List Nat)}
    {tt : TaskTrans} {a : Nat}
    (h : find_dropper cl ts cands tt = Decision.accept a) :
    ts.state = TState.memory ∧ 2 ≤ (curHolders ts tt).length ∧
      a ∈ dropPoolSafe cl ts cands tt ∧
      ∀ x ∈ dropPoolSafe cl ts cands tt, dropBetter cl a x = false := by
  unfold find_dropper at h
  split at h
  · exact absurd h (by simp)
  · rename_i hmem
    split at h
    · exact absurd h (by simp)
    · split at h
      · exact absurd h (by simp)
      · rename_i hlen
        split at h
        · exact absurd h (by simp)
        · split at h
          · exact absurd h (by simp)
          · rename_i x l heq
            have hpick : pickFrom (dropBetter cl) x l = a := by
              simpa using h
            refine ⟨by simpa using hmem, by omega, ?_, ?_⟩
            · rw [heq, ← hpick]
              exact pickFrom_mem (dropBetter cl) l x
            · rw [heq, ← hpick]
              exact pickFrom_best (dropBetter_good cl) l x

theorem find_dropper_safe_empty {cl : Cluster} {ts : Task} {cands : Option (List Nat)}
    {tt : TaskTrans} (h : dropPoolSafe cl ts cands tt = []) :
    ∀ a, find_dropper cl ts cands tt ≠ Decision.accept a := by
  intro a hacc
  rcases find_dropper_accept hacc with ⟨-, -, hmem, -⟩
  rw [h] at hmem
  simp at hmem

theorem find_recipient_accept {cl : Cluster} {ts : Task} {cands : Option (List Nat)}
    {tt : TaskTrans} {a : Nat}
    (h : find_recipient cl ts cands tt = Decision.accept a) :
    ts.state = TState.memory ∧ a ∈ replPool cl ts cands tt ∧
      ∀ x ∈ replPool cl ts cands tt, replBetter cl a x = false := by
  unfold find_recipient at h
  split at h
  · exact absurd h (by simp)
  · rename_i hmem
    split at h
    · exact absurd h (by simp)
    · rename_i x l heq
      have hpick : pickFrom (replBetter cl) x l = a := by simpa using h
      refine ⟨by simpa using hmem, ?_, ?_⟩
      · rw [heq, ← hpick]
        exact pickFrom_mem (replBetter cl) l x
      · rw [heq, ← hpick]
        exact pickFrom_best (replBetter_good cl) l x

theorem find_recipient_pool_empty {cl : Cluster} {ts : Task} {cands : Option (List Nat)}
    {tt : TaskTrans} (h : replPool cl ts cands tt = []) :
    ∀ a, find_recipient cl ts cands tt ≠ Decision.accept a := by
  intro a hacc
  rcases find_recipient_accept hacc with ⟨-, hmem, -⟩
  rw [h] at hmem
  simp at hmem

end AMM

namespace AMM

/-! Task lookup and transaction update. -/

theorem find_key_of_mem : ∀ {l : List Task} {ts : Task},
    (l.map (fun t => t.key)).Nodup → ts ∈ l →
    l.find? (fun t => t.key = ts.key) = some ts := by
  intro l
  induction l with
  | nil => intro ts _ h; simp at h
  | cons t l ih =>
    intro ts hnd hm
    rw [List.map_cons] at hnd
    rcases List.nodup_cons.mp hnd with ⟨hk, hl⟩
    rcases List.mem_cons.mp hm with h | h
    · subst h
      simp [List.find?_cons]
    · have hne : (t.key = ts.key) = False := by
        simp only [eq_iff_iff, iff_false]
        intro he
        exact hk (he ▸ List.mem_map_of_mem (fun t => t.key) h)
      rw [List.find?_cons]
      simp only [hne, decide_False]
      exact ih hl h

theorem findTask_of_mem {cl : Cluster} {ts : Task} (hwf : Wf cl) (h : ts ∈ cl.tasks) :
    findTask cl ts.key = some ts :=
  find_key_of_mem hwf.1 h

theorem updTrans_self (tr : Trans) (k : Nat) (t : TaskTrans) : updTrans tr k t k = t := by
  simp [updTrans]

theorem updTrans_ne (tr : Trans) (k k' : Nat) (t : TaskTrans) (h : k' ≠ k) :
    updTrans tr k t k' = tr k' := by
  simp [updTrans, h]

/-! Shape of `processSuggestion`: it either leaves the transaction unchanged
(with a rejection) or records one accepted worker for the suggestion's task. -/

theorem processSuggestion_cases (cl : Cluster) (tr : Trans) (s : Suggestion) :
    (∃ r, processSuggestion cl tr s = (tr, Decision.reject r)) ∨
    (∃ ts a, findTask cl s.key = some ts ∧ s.op = Op.drop ∧
      find_dropper cl ts s.candidates (tr s.key) = Decision.accept a ∧
      processSuggestion cl tr s =
        (updTrans tr s.key ⟨(tr s.key).padd, a :: (tr s.key).prem⟩, Decision.accept a)) ∨
    (∃ ts a, findTask cl s.key = some ts ∧ s.op = Op.replicate ∧
      find_recipient cl ts s.candidates (tr s.key) = Decision.accept a ∧
      processSuggestion cl tr s =
        (updTrans tr s.key ⟨a :: (tr s.key).padd, (tr s.key).prem⟩, Decision.accept a)) := by
  unfold processSuggestion
  split
  · exact Or.inl ⟨some "unknown task", rfl⟩
  · rename_i ts hts
    split
    · rename_i hop
      split
      · rename_i a ha
        exact Or.inr (Or.inl ⟨ts, a, hts, hop, ha, rfl⟩)
      · rename_i d hd
        rcases hval : find_dropper cl ts s.candidates (tr s.key) with a | r
        · exact absurd hval (hd a)
        · exact Or.inl ⟨r, rfl⟩
    · rename_i hop
      split
      · rename_i a ha
        exact Or.inr (Or.inr ⟨ts, a, hts, hop, ha, rfl⟩)
      · rename_i d hd
        rcases hval : find_recipient cl ts s.candidates (tr s.key) with a | r
        · exact absurd hval (hd a)
        · exact Or.inl ⟨r, rfl⟩

end AMM

namespace AMM

theorem runSuggs_fst_preserve {cl : Cluster} (P : Trans → Prop)
    (hstep : ∀ tr s, P tr → P (processSuggestion cl tr s).1) :
    ∀ (ss : List Suggestion) (tr : Trans), P tr → P (runSuggs cl tr ss).1 := by
  intro ss
  induction ss with
  | nil => intro tr h; exact h
  | cons s ss ih => intro tr h; exact ih _ (hstep tr s h)

theorem processSuggestion_cur_step {cl : Cluster} (hwf : Wf cl) {ts : Task}
    (hts : ts ∈ cl.tasks) (tr : Trans) (s : Suggestion)
    (h : curHolders ts (tr ts.key) ≠ []) :
    curHolders ts ((processSuggestion cl tr s).1 ts.key) ≠ [] := by
  rcases processSuggestion_cases cl tr s with ⟨r, heq⟩ |
    ⟨ts', a, hts', hop, hacc, heq⟩ | ⟨ts', a, hts', hop, hacc, heq⟩
  · have hfst : (processSuggestion cl tr s).1 = tr := by rw [heq]
    rw [hfst]; exact h
  · have hfst : (processSuggestion cl tr s).1
        = updTrans tr s.key ⟨(tr s.key).padd, a :: (tr s.key).prem⟩ := by rw [heq]
    rw [hfst]
    by_cases hk : ts.key = s.key
    · have hts2 : ts' = ts := by
        have h1 := findTask_of_mem hwf hts
        rw [hk] at h1
        rw [h1] at hts'
        exact (Option.some_inj.mp hts').symm
      subst hts2
      rw [hk, updTrans_self]
      rcases find_dropper_accept hacc with ⟨-, hlen, hmem, -⟩
      have hcur : a ∈ curHolders ts' (tr s.key) := (mem_dropPoolSafe hmem).1
      have hnd : (curHolders ts' (tr s.key)).Nodup := curHolders_nodup (hwf.2 ts' hts)
      have hrw : curHolders ts' ⟨(tr s.key).padd, a :: (tr s.key).prem⟩
          = (curHolders ts' (tr s.key)).filter (fun x => decide (x ≠ a)) :=
        curHolders_prem_cons ts' _ (tr s.key).padd _ a
      rw [hrw]
      have hl := filter_ne_length hnd hcur
      intro hnil
      rw [hnil] at hl
      simp only [List.length_nil] at hl
      omega
    · rw [updTrans_ne _ _ _ _ hk]
      exact h
  · have hfst : (processSuggestion cl tr s).1
        = updTrans tr s.key ⟨a :: (tr s.key).padd, (tr s.key).prem⟩ := by rw [heq]
    rw [hfst]
    by_cases hk : ts.key = s.key
    · rw [hk, updTrans_self]
      have hch : curHolders ts ⟨a :: (tr s.key).padd, (tr s.key).prem⟩
          = curHolders ts (tr s.key) := rfl
      rw [hch, ← hk]
      exact h
    · rw [updTrans_ne _ _ _ _ hk]
      exact h

theorem processSuggestion_running_step {cl : Cluster} (hwf : Wf cl) {ts : Task}
    (hts : ts ∈ cl.tasks) (tr : Trans) (s : Suggestion)
    (h : ∃ b ∈ curHolders ts (tr ts.key), isRunningW cl b = true) :
    ∃ b ∈ curHolders ts ((processSuggestion cl tr s).1 ts.key),
      isRunningW cl b = true := by
  rcases processSuggestion_cases cl tr s with ⟨r, heq⟩ |
    ⟨ts', a, hts', hop, hacc, heq⟩ | ⟨ts', a, hts', hop, hacc, heq⟩
  · have hfst : (processSuggestion cl tr s).1 = tr := by rw [heq]
    rw [hfst]; exact h
  · have hfst : (processSuggestion cl tr s).1
        = updTrans tr s.key ⟨(tr s.key).padd, a :: (tr s.key).prem⟩ := by rw [heq]
    rw [hfst]
    by_cases hk : ts.key = s.key
    · have hts2 : ts' = ts := by
        have h1 := findTask_of_mem hwf hts
        rw [hk] at h1
        rw [h1] at hts'
        exact (Option.some_inj.mp hts').symm
      subst hts2
      rw [hk, updTrans_self]
      rcases find_dropper_accept hacc with ⟨-, -, hmem, -⟩
      have hrw : curHolders ts' ⟨(tr s.key).padd, a :: (tr s.key).prem⟩
          = (curHolders ts' (tr s.key)).filter (fun x => decide (x ≠ a)) :=
        curHolders_prem_cons ts' _ (tr s.key).padd _ a
      rw [hrw]
      by_cases hrun : isRunningW cl a = true
      · rcases (mem_dropPoolSafe hmem).2.2 hrun with ⟨b, hb, hba, hbr⟩
        exact ⟨b, List.mem_filter.mpr ⟨hb, by simpa using hba⟩, hbr⟩
      · rcases h with ⟨b, hb, hbr⟩
        have hba : b ≠ a := by
          intro hba
          exact hrun (hba ▸ hbr)
        rw [hk] at hb
        exact ⟨b, List.mem_filter.mpr ⟨hb, by simpa using hba⟩, hbr⟩
    · rw [updTrans_ne _ _ _ _ hk]
      exact h
  · have hfst : (processSuggestion cl tr s).1
        = updTrans tr s.key ⟨a :: (tr s.key).padd, (tr s.key).prem⟩ := by rw [heq]
    rw [hfst]
    by_cases hk : ts.key = s.key
    · rw [hk, updTrans_self]
      have hch : curHolders ts ⟨a :: (tr s.key).padd, (tr s.key).prem⟩
          = curHolders ts (tr s.key) := rfl
      rw [hch, ← hk]
      exact h
    · rw [updTrans_ne _ _ _ _ hk]
      exact h

theorem processSuggestion_padd_step {cl : Cluster} (tr : Trans) (s : Suggestion)
    (h : ∀ k, ((tr k).padd).Nodup) :
    ∀ k, (((processSuggestion cl tr s).1 k).padd).Nodup := by
  intro k
  rcases processSuggestion_cases cl tr s with ⟨r, heq⟩ |
    ⟨ts', a, hts', hop, hacc, heq⟩ | ⟨ts', a, hts', hop, hacc, heq⟩
  · have hfst : (processSuggestion cl tr s).1 = tr := by rw [heq]
    rw [hfst]; exact h k
  · have hfst : (processSuggestion cl tr s).1
        = updTrans tr s.key ⟨(tr s.key).padd, a :: (tr s.key).prem⟩ := by rw [heq]
    rw [hfst]
    by_cases hk : k = s.key
    · rw [hk, updTrans_self]
      exact h s.key
    · rw [updTrans_ne _ _ _ _ hk]
      exact h k
  · have hfst : (processSuggestion cl tr s).1
        = updTrans tr s.key ⟨a :: (tr s.key).padd, (tr s.key).prem⟩ := by rw [heq]
    rw [hfst]
    by_cases hk : k = s.key
    · rw [hk, updTrans_self]
      rcases find_recipient_accept hacc with ⟨-, hmem, -⟩
      have hnp : a ∉ (tr s.key).padd := (mem_replPool hmem).2.1
      exact List.nodup_cons.mpr ⟨hnp, h s.key⟩
    · rw [updTrans_ne _ _ _ _ hk]
      exact h k

theorem run_once_cur_ne {cl : Cluster} {ss : List Suggestion} (hwf : Wf cl)
    {ts : Task} (hts : ts ∈ cl.tasks) (hne : ts.who_has ≠ []) :
    curHolders ts (run_once cl ss ts.key) ≠ [] := by
  have h0 : curHolders ts (emptyTrans ts.key) ≠ [] := by
    show curHolders ts emptyTT ≠ []
    rw [curHolders_emptyTT]
    exact hne
  exact runSuggs_fst_preserve (fun tr => curHolders ts (tr ts.key) ≠ [])
    (fun tr s => processSuggestion_cur_step hwf hts tr s) ss emptyTrans h0

theorem run_once_effective_ne {cl : Cluster} {ss : List Suggestion} (hwf : Wf cl)
    {ts : Task} (hts : ts ∈ cl.tasks) (hne : ts.who_has ≠ []) :
    effective ts (run_once cl ss ts.key) ≠ [] := by
  unfold effective
  intro hnil
  exact run_once_cur_ne hwf hts hne (List.append_eq_nil.mp hnil).1

theorem run_once_running_ne {cl : Cluster} {ss : List Suggestion} (hwf : Wf cl)
    {ts : Task} (hts : ts ∈ cl.tasks)
    (hne : ∃ b ∈ ts.who_has, isRunningW cl b = true) :
    ∃ b ∈ curHolders ts (run_once cl ss ts.key), isRunningW cl b = true := by
  have h0 : ∃ b ∈ curHolders ts (emptyTrans ts.key), isRunningW cl b = true := by
    show ∃ b ∈ curHolders ts emptyTT, isRunningW cl b = true
    rw [curHolders_emptyTT]
    exact hne
  exact runSuggs_fst_preserve
    (fun tr => ∃ b ∈ curHolders ts (tr ts.key), isRunningW cl b = true)
    (fun tr s => processSuggestion_running_step hwf hts tr s) ss emptyTrans h0

theorem run_once_padd_nodup {cl : Cluster} {ss : List Suggestion} :
    ∀ k, ((run_once cl ss k).padd).Nodup := by
  exact runSuggs_fst_preserve (fun tr => ∀ k, ((tr k).padd).Nodup)
    (fun tr s h => processSuggestion_padd_step tr s h) ss emptyTrans
    (fun k => by simp [emptyTrans, emptyTT])

end AMM

namespace AMM

/-! Enactment preserves wellformedness and replica availability. -/

theorem enactTask_key (ts : Task) (tt : TaskTrans) : (enactTask ts tt).key = ts.key := rfl

theorem effective_nodup {ts : Task} {tt : TaskTrans} (h1 : ts.who_has.Nodup)
    (h2 : tt.padd.Nodup) : (effective ts tt).Nodup := by
  unfold effective
  refine List.Nodup.append (curHolders_nodup h1) (h2.filter _) ?_
  intro a ha hb
  have h3 := (mem_curHolders ha).1
  have h4 := List.mem_filter.mp hb
  simp only [decide_eq_true_eq] at h4
  exact h4.2 h3

theorem enact_keys (cl : Cluster) (tr : Trans) :
    (enact cl tr).tasks.map (fun t => t.key) = cl.tasks.map (fun t => t.key) := by
  unfold enact
  rw [List.map_map]
  rfl

theorem enact_wf {cl : Cluster} {tr : Trans} (hwf : Wf cl)
    (hpadd : ∀ k, ((tr k).padd).Nodup) : Wf (enact cl tr) := by
  constructor
  · rw [enact_keys]
    exact hwf.1
  · intro ts' hts'
    unfold enact at hts'
    rcases List.mem_map.mp hts' with ⟨ts, hts, heq⟩
    rw [← heq]
    exact effective_nodup (hwf.2 ts hts) (hpadd ts.key)

theorem tickEnact_good {pol : Policy} {cl : Cluster} (h : GoodCl cl) :
    GoodCl (tickEnact pol cl) := by
  rcases h with ⟨hwf, hne⟩
  constructor
  · exact enact_wf hwf (fun k => run_once_padd_nodup k)
  · intro ts' hts'
    unfold tickEnact enact at hts'
    rcases List.mem_map.mp hts' with ⟨ts, hts, heq⟩
    rw [← heq]
    show effective ts (run_once cl (pol cl) ts.key) ≠ []
    exact run_once_effective_ne hwf hts (hne ts hts)

theorem iterTick_good {pol : Policy} {cl : Cluster} (h : GoodCl cl) :
    ∀ n, GoodCl (iterTick pol n cl) := by
  intro n
  induction n generalizing cl with
  | zero => exact h
  | succ n ih => exact ih (tickEnact_good h)

end AMM

namespace AMM

/-- Exhaustive case analysis of `find_dropper`. -/
theorem find_dropper_cases (cl : Cluster) (ts : Task) (cands : Option (List Nat))
    (tt : TaskTrans) :
    (ts.state ≠ TState.memory ∧ find_dropper cl ts cands tt = Decision.reject none) ∨
    (ts.state = TState.memory ∧ dropPool ts cands tt = [] ∧
      find_dropper cl ts cands tt = Decision.reject
        (match cands with
         | none => some "no eligible holder"
         | some [] => none
         | some (_ :: _) => some "no candidate holds the key")) ∨
    (ts.state = TState.memory ∧ dropPool ts cands tt ≠ [] ∧
      (curHolders ts tt).length < 2 ∧
      find_dropper cl ts cands tt = Decision.reject (some "less than 2 replicas exist")) ∨
    (ts.state = TState.memory ∧ dropPool ts cands tt ≠ [] ∧
      2 ≤ (curHolders ts tt).length ∧ dropPoolNW cl ts cands tt = [] ∧
      find_dropper cl ts cands tt = Decision.reject (some "waiters would be stranded")) ∨
    (ts.state = TState.memory ∧ dropPool ts cands tt ≠ [] ∧
      2 ≤ (curHolders ts tt).length ∧ dropPoolNW cl ts cands tt ≠ [] ∧
      dropPoolSafe cl ts cands tt = [] ∧
      find_dropper cl ts cands tt = Decision.reject (some "no eligible holder")) ∨
    (∃ x l, ts.state = TState.memory ∧ 2 ≤ (curHolders ts tt).length ∧
      dropPoolSafe cl ts cands tt = x :: l ∧
      find_dropper cl ts cands tt = Decision.accept (pickFrom (dropBetter cl) x l)) := by
  unfold find_dropper
  split
  · rename_i hst
    exact Or.inl ⟨hst, rfl⟩
  · rename_i hst
    rw [not_not] at hst
    split
    · rename_i hdp
      exact Or.inr (Or.inl ⟨hst, hdp, rfl⟩)
    · rename_i x0 l0 hdp
      split
      · rename_i hlen
        refine Or.inr (Or.inr (Or.inl ⟨hst, ?_, hlen, rfl⟩))
        rw [hdp]; simp
      · rename_i hlen
        split
        · rename_i hnw
          refine Or.inr (Or.inr (Or.inr (Or.inl ⟨hst, ?_, by omega, hnw, rfl⟩)))
          rw [hdp]; simp
        · rename_i y0 m0 hnw
          split
          · rename_i hsafe
            refine Or.inr (Or.inr (Or.inr (Or.inr (Or.inl
              ⟨hst, ?_, by omega, ?_, hsafe, rfl⟩))))
            · rw [hdp]; simp
            · rw [hnw]; simp
          · rename_i x l hsafe
            exact Or.inr (Or.inr (Or.inr (Or.inr (Or.inr
              ⟨x, l, hst, by omega, hsafe, rfl⟩))))

/-- A list of at least two distinct elements has a second element. -/
theorem exists_other {l : List Nat} {a : Nat} (hnd : l.Nodup) (hlen : 2 ≤ l.length)
    (ha : a ∈ l) : ∃ b ∈ l, b ≠ a := by
  match l, hnd, hlen with
  | x :: y :: t, hnd, _ =>
    rcases List.nodup_cons.mp hnd with ⟨hx, _⟩
    by_cases hax : a = x
    · refine ⟨y, by simp, ?_⟩
      intro hya
      apply hx
      rw [hya, hax]
      exact List.mem_cons_self x t
    · exact ⟨x, by simp, fun hxa => hax hxa.symm⟩

end AMM

namespace AMM

/-! The DemoPolicy drop scenario: holders all running, no executing
dependents, nil candidates.  Matches test_drop / test_double_drop_stress. -/

theorem dropPoolNW_all_running {cl : Cluster} {ts : Task} {tt : TaskTrans}
    (hnw : ∀ a ∈ ts.who_has, hasWaiterOn cl ts a = false) :
    dropPoolNW cl ts none tt = curHolders ts tt := by
  unfold dropPoolNW
  have hdp : dropPool ts none tt = curHolders ts tt := rfl
  rw [hdp]
  apply List.filter_eq_self.mpr
  intro a ha
  rw [hnw a (mem_curHolders ha).1]
  rfl

theorem dropPoolSafe_all_running {cl : Cluster} {ts : Task} {tt : TaskTrans}
    (hnd : ts.who_has.Nodup)
    (hrun : ∀ a ∈ ts.who_has, isRunningW cl a = true)
    (hnw : ∀ a ∈ ts.who_has, hasWaiterOn cl ts a = false)
    (hlen : 2 ≤ (curHolders ts tt).length) :
    dropPoolSafe cl ts none tt = curHolders ts tt := by
  unfold dropPoolSafe
  rw [dropPoolNW_all_running hnw]
  apply List.filter_eq_self.mpr
  intro a ha
  rcases exists_other (curHolders_nodup hnd) hlen ha with ⟨b, hb, hba⟩
  have : (curHolders ts tt).any (fun b => decide (b ≠ a) && isRunningW cl b) = true := by
    rw [List.any_eq_true]
    exact ⟨b, hb, by simp [hba, hrun b (mem_curHolders hb).1]⟩
  rw [this]
  simp

theorem find_dropper_demo {cl : Cluster} {ts : Task} {tt : TaskTrans}
    (hmem : ts.state = TState.memory)
    (hnd : ts.who_has.Nodup)
    (hrun : ∀ a ∈ ts.who_has, isRunningW cl a = true)
    (hnw : ∀ a ∈ ts.who_has, hasWaiterOn cl ts a = false)
    (hne : curHolders ts tt ≠ []) :
    (2 ≤ (curHolders ts tt).length ∧
      ∃ a, a ∈ curHolders ts tt ∧ find_dropper cl ts none tt = Decision.accept a) ∨
    ((curHolders ts tt).length < 2 ∧
      find_dropper cl ts none tt = Decision.reject (some "less than 2 replicas exist")) := by
  have hdp : dropPool ts none tt = curHolders ts tt := rfl
  rcases find_dropper_cases cl ts none tt with
    ⟨hst, -⟩ | ⟨-, hdpe, -⟩ | ⟨-, -, hlen, heq⟩ | ⟨-, -, hlen, hnwl, -⟩ |
    ⟨-, -, hlen, -, hsafe, -⟩ | ⟨x, l, -, hlen, hsafe, heq⟩
  · exact absurd hmem hst
  · rw [hdp] at hdpe
    exact absurd hdpe hne
  · exact Or.inr ⟨hlen, heq⟩
  · rw [dropPoolNW_all_running hnw] at hnwl
    exact absurd hnwl hne
  · rw [dropPoolSafe_all_running hnd hrun hnw hlen] at hsafe
    exact absurd hsafe hne
  · left
    refine ⟨hlen, pickFrom (dropBetter cl) x l, ?_, heq⟩
    rw [dropPoolSafe_all_running hnd hrun hnw hlen] at hsafe
    rw [hsafe]
    exact pickFrom_mem (dropBetter cl) l x

end AMM

namespace AMM

theorem runSuggs_cons (cl : Cluster) (tr : Trans) (s : Suggestion) (ss : List Suggestion) :
    runSuggs cl tr (s :: ss) =
      ((runSuggs cl (processSuggestion cl tr s).1 ss).1,
        (processSuggestion cl tr s).2 :: (runSuggs cl (processSuggestion cl tr s).1 ss).2) := rfl

theorem processSuggestion_eq_drop_accept {cl : Cluster} {tr : Trans} {ts : Task}
    {cands : Option (List Nat)} {a : Nat}
    (hfind : findTask cl ts.key = some ts)
    (hacc : find_dropper cl ts cands (tr ts.key) = Decision.accept a) :
    processSuggestion cl tr ⟨Op.drop, ts.key, cands⟩ =
      (updTrans tr ts.key ⟨(tr ts.key).padd, a :: (tr ts.key).prem⟩,
        Decision.accept a) := by
  unfold processSuggestion
  dsimp only
  rw [hfind]
  dsimp only
  rw [hacc]

theorem processSuggestion_eq_drop_reject {cl : Cluster} {tr : Trans} {ts : Task}
    {cands : Option (List Nat)} {r : Option String}
    (hfind : findTask cl ts.key = some ts)
    (hrej : find_dropper cl ts cands (tr ts.key) = Decision.reject r) :
    processSuggestion cl tr ⟨Op.drop, ts.key, cands⟩ = (tr, Decision.reject r) := by
  unfold processSuggestion
  dsimp only
  rw [hfind]
  dsimp only
  rw [hrej]

theorem countP_isAccept_cons_accept (a : Nat) (ds : List Decision) :
    ((Decision.accept a :: ds).countP Decision.isAccept) = ds.countP Decision.isAccept + 1 := by
  rw [List.countP_cons]
  simp [Decision.isAccept]

theorem countP_isAccept_cons_reject (r : Option String) (ds : List Decision) :
    ((Decision.reject r :: ds).countP Decision.isAccept) = ds.countP Decision.isAccept := by
  rw [List.countP_cons]
  simp [Decision.isAccept]

/-- The DemoPolicy scenario, advanced one tick: processing `n` identical
nil-candidate drop suggestions for a task whose holders are all running and
free of executing dependents accepts exactly enough drops to leave one
replica and rejects the rest with "less than 2 replicas exist". -/
theorem demo_drop_seq {cl : Cluster} {ts : Task}
    (hfind : findTask cl ts.key = some ts)
    (hmem : ts.state = TState.memory)
    (hnd : ts.who_has.Nodup)
    (hrun : ∀ a ∈ ts.who_has, isRunningW cl a = true)
    (hnw : ∀ a ∈ ts.who_has, hasWaiterOn cl ts a = false) :
    ∀ (n : Nat) (tr : Trans), curHolders ts (tr ts.key) ≠ [] →
    ((runSuggs cl tr (List.replicate n ⟨Op.drop, ts.key, none⟩)).2.countP
        Decision.isAccept = min n ((curHolders ts (tr ts.key)).length - 1)) ∧
    (∀ d ∈ (runSuggs cl tr (List.replicate n ⟨Op.drop, ts.key, none⟩)).2,
        d.isAccept = true ∨ d = Decision.reject (some "less than 2 replicas exist")) := by
  intro n
  induction n with
  | zero =>
    intro tr hne
    constructor
    · simp [runSuggs]
    · intro d hd
      simp [runSuggs] at hd
  | succ n ih =>
    intro tr hne
    rw [List.replicate_succ, runSuggs_cons]
    rcases find_dropper_demo hmem hnd hrun hnw hne with
      ⟨hlen, a, hmem2, hacc⟩ | ⟨hlen, hrej⟩
    · -- accept step
      rw [processSuggestion_eq_drop_accept hfind hacc]
      have hrw : curHolders ts ((updTrans tr ts.key
          ⟨(tr ts.key).padd, a :: (tr ts.key).prem⟩) ts.key)
          = (curHolders ts (tr ts.key)).filter (fun x => decide (x ≠ a)) := by
        rw [updTrans_self]
        exact curHolders_prem_cons ts _ (tr ts.key).padd _ a
      have hlf := filter_ne_length (curHolders_nodup hnd) hmem2
      have hne' : curHolders ts ((updTrans tr ts.key
          ⟨(tr ts.key).padd, a :: (tr ts.key).prem⟩) ts.key) ≠ [] := by
        rw [hrw]
        intro hnil
        rw [hnil] at hlf
        simp only [List.length_nil] at hlf
        omega
      rcases ih _ hne' with ⟨ihc, ihd⟩
      constructor
      · rw [countP_isAccept_cons_accept, ihc, hrw, hlf]
        omega
      · intro d hd
        rcases List.mem_cons.mp hd with h | h
        · left; rw [h]; rfl
        · exact ihd d h
    · -- reject step: transaction unchanged
      rw [processSuggestion_eq_drop_reject hfind hrej]
      rcases ih tr hne with ⟨ihc, ihd⟩
      constructor
      · rw [countP_isAccept_cons_reject, ihc]
        omega
      · intro d hd
        rcases List.mem_cons.mp hd with h | h
        · right; rw [h]
        · exact ihd d h

end AMM

namespace AMM

/-! Worker status bookkeeping for the retirement workflow. -/

theorem addresses_setStatus (c : Cluster) (b : Nat) (st : WStatus) :
    (setStatus c b st).workers.map (fun w => w.address)
      = c.workers.map (fun w => w.address) := by
  unfold setStatus
  rw [List.map_map]
  have : ((fun w => w.address) ∘
      (fun w => if w.address = b then { w with status := st } else w))
      = fun (w : Worker) => w.address := by
    funext w
    by_cases h : w.address = b <;> simp [h]
  rw [this]

theorem addrIn_setStatus {c : Cluster} {a : Nat} (b : Nat) (st : WStatus)
    (h : AddrIn c a) : AddrIn (setStatus c b st) a := by
  unfold AddrIn
  rw [addresses_setStatus]
  exact h

theorem addrIn_foldl_setStatus {a : Nat} (st : WStatus) :
    ∀ (l : List Nat) (c : Cluster), AddrIn c a →
      AddrIn (l.foldl (fun c b => setStatus c b st) c) a := by
  intro l
  induction l with
  | nil => intro c h; exact h
  | cons b l ih => intro c h; exact ih _ (addrIn_setStatus b st h)

theorem find?_map_set_self : ∀ (l : List Worker) (a : Nat) (st : WStatus),
    (∃ w ∈ l, w.address = a) →
    ((l.map (fun w => if w.address = a then { w with status := st } else w)).find?
        (fun w => w.address = a)).map (fun w => w.status) = some st := by
  intro l
  induction l with
  | nil => intro a st h; simp at h
  | cons w l ih =>
    intro a st h
    by_cases hw : w.address = a
    · simp [List.find?_cons, hw]
    · rw [List.map_cons, List.find?_cons]
      rw [if_neg hw]
      have hpred : (decide (w.address = a)) = false := by simp [hw]
      rw [hpred]
      apply ih
      rcases h with ⟨w', hw', ha'⟩
      rcases List.mem_cons.mp hw' with h | h
      · exact absurd (h ▸ ha') hw
      · exact ⟨w', h, ha'⟩

theorem find?_map_set_ne : ∀ (l : List Worker) (a b : Nat) (st : WStatus), a ≠ b →
    (l.map (fun w => if w.address = b then { w with status := st } else w)).find?
        (fun w => w.address = a) = l.find? (fun w => w.address = a) := by
  intro l
  induction l with
  | nil => intro a b st h; simp
  | cons w l ih =>
    intro a b st h
    rw [List.map_cons, List.find?_cons, List.find?_cons]
    by_cases hw : w.address = b
    · rw [if_pos hw]
      have h2 : (decide (w.address = a)) = false := by
        simp only [decide_eq_false_iff_not]
        rw [hw]
        exact fun he => h he.symm
      simp only [h2]
      exact ih a b st h
    · rw [if_neg hw]
      by_cases ha : w.address = a
      · simp [ha]
      · have h2 : (decide (w.address = a)) = false := by simp [ha]
        rw [h2]
        exact ih a b st h

theorem statusOf_setStatus_self {c : Cluster} {a : Nat} (st : WStatus)
    (h : AddrIn c a) : statusOf (setStatus c a st) a = some st := by
  unfold statusOf findWorker setStatus
  apply find?_map_set_self
  rcases List.mem_map.mp h with ⟨w, hw, ha⟩
  exact ⟨w, hw, ha⟩

theorem statusOf_setStatus_ne {c : Cluster} {a b : Nat} (st : WStatus) (h : a ≠ b) :
    statusOf (setStatus c b st) a = statusOf c a := by
  unfold statusOf findWorker setStatus
  rw [find?_map_set_ne c.workers a b st h]

theorem statusOf_foldl_not_mem {st : WStatus} :
    ∀ (l : List Nat) (c : Cluster) (a : Nat), a ∉ l →
      statusOf (l.foldl (fun c b => setStatus c b st) c) a = statusOf c a := by
  intro l
  induction l with
  | nil => intro c a _; rfl
  | cons b l ih =>
    intro c a h
    have hab : a ≠ b := fun he => h (he ▸ List.mem_cons_self b l)
    have hal : a ∉ l := fun hm => h (List.mem_cons.mpr (Or.inr hm))
    show statusOf (l.foldl (fun c b => setStatus c b st) (setStatus c b st)) a = _
    rw [ih _ _ hal, statusOf_setStatus_ne st hab]

theorem statusOf_foldl_mem {st : WStatus} :
    ∀ (l : List Nat) (c : Cluster) (a : Nat), l.Nodup → a ∈ l → AddrIn c a →
      statusOf (l.foldl (fun c b => setStatus c b st) c) a = some st := by
  intro l
  induction l with
  | nil => intro c a _ h _; simp at h
  | cons b l ih =>
    intro c a hnd hm hin
    rcases List.nodup_cons.mp hnd with ⟨hb, hl⟩
    by_cases hab : a = b
    · subst hab
      have hal : a ∉ l := hb
      show statusOf (l.foldl (fun c b => setStatus c b st) (setStatus c a st)) a = _
      rw [statusOf_foldl_not_mem l _ a hal]
      exact statusOf_setStatus_self st hin
    · have hal : a ∈ l := by
        rcases List.mem_cons.mp hm with h | h
        · exact absurd h hab
        · exact h
      show statusOf (l.foldl (fun c b => setStatus c b st) (setStatus c b st)) a = _
      exact ih _ a hl hal (addrIn_setStatus b st hin)

theorem retireTick_workers (addrs : List Nat) (cl : Cluster) :
    (retireTick addrs cl).workers = cl.workers := rfl

theorem retireLoop_workers (addrs : List Nat) :
    ∀ (n : Nat) (cl : Cluster), (retireLoop addrs n cl).workers = cl.workers := by
  intro n
  induction n with
  | zero => intro cl; rfl
  | succ n ih =>
    intro cl
    show (retireLoop addrs n (retireTick addrs cl)).workers = cl.workers
    rw [ih, retireTick_workers]

theorem addrIn_retireDrained {cl : Cluster} {addrs : List Nat} {fuel : Nat} {a : Nat}
    (h : AddrIn cl a) : AddrIn (retireDrained cl addrs fuel) a := by
  unfold AddrIn retireDrained
  rw [retireLoop_workers]
  exact addrIn_foldl_setStatus WStatus.closing_gracefully addrs cl h

theorem find?_filter_keep {l : List Worker} {p q : Worker → Bool}
    (h : ∀ w, q w = true → p w = true) : (l.filter p).find? q = l.find? q := by
  induction l with
  | nil => rfl
  | cons w l ih =>
    rw [List.filter_cons]
    by_cases hq : q w = true
    · rw [if_pos (h w hq), List.find?_cons, List.find?_cons, hq]
    · have hq' : q w = false := by simpa using hq
      by_cases hp : p w = true
      · rw [if_pos hp, List.find?_cons, List.find?_cons, hq']
        exact ih
      · rw [if_neg hp, List.find?_cons, hq']
        exact ih

theorem find?_filter_drop {l : List Worker} {p q : Worker → Bool}
    (h : ∀ w, q w = true → p w = false) : (l.filter p).find? q = none := by
  induction l with
  | nil => rfl
  | cons w l ih =>
    rw [List.filter_cons]
    by_cases hp : p w = true
    · rw [if_pos hp, List.find?_cons]
      have hq : q w = false := by
        by_contra hq
        rw [h w (by simpa using hq)] at hp
        simp at hp
      rw [hq]
      exact ih
    · rw [if_neg hp]
      exact ih

end AMM

namespace AMM

theorem find_dropper_empty_cands (cl : Cluster) (ts : Task) (tt : TaskTrans) :
    find_dropper cl ts (some []) tt = Decision.reject none := by
  unfold find_dropper
  split
  · rfl
  · rfl

theorem find_recipient_empty_cands (cl : Cluster) (ts : Task) (tt : TaskTrans) :
    find_recipient cl ts (some []) tt = Decision.reject none := by
  unfold find_recipient
  split
  · rfl
  · rfl

/-- C7: a suggestion with an explicit empty candidate set is a silent no-op:
the transaction (hence the task's planned replica placement) is unchanged
and the rejection carries no logged reason, unlike `candidates = none`. -/
theorem amm_empty_candidates_noop (cl : Cluster) (tr : Trans) (s : Suggestion)
    (hex : ∃ ts, findTask cl s.key = some ts) (hc : s.candidates = some []) :
    processSuggestion cl tr s = (tr, Decision.reject none) := by
  rcases hex with ⟨ts, hts⟩
  obtain ⟨op, k, cands⟩ := s
  simp only at hts hc
  subst hc
  unfold processSuggestion
  dsimp only
  rw [hts]
  match op with
  | Op.drop =>
    dsimp only
    rw [find_dropper_empty_cands]
  | Op.replicate =>
    dsimp only
    rw [find_recipient_empty_cands]

/-- C7 witness: the explicit empty-candidate drop and replicate of
test_drop_with_empty_candidates / test_replicate_with_empty_candidates are
silent no-ops on the two-worker snapshot. -/
theorem amm_empty_candidates_noop_witness :
    processSuggestion c7Cl emptyTrans ⟨Op.drop, 100, some []⟩
        = (emptyTrans, Decision.reject none) ∧
      processSuggestion c7Cl emptyTrans ⟨Op.replicate, 100, some []⟩
        = (emptyTrans, Decision.reject none) :=
  ⟨amm_empty_candidates_noop c7Cl emptyTrans ⟨Op.drop, 100, some []⟩
      ⟨c7Task, by decide⟩ rfl,
   amm_empty_candidates_noop c7Cl emptyTrans ⟨Op.replicate, 100, some []⟩
      ⟨c7Task, by decide⟩ rfl⟩

/-- C8: `start` and `stop` are idempotent; starting from a stopped manager
with no periodic tick, a double `start` installs exactly one periodic tick,
and after `stop` a periodic beat no longer acts on the snapshot. -/
theorem amm_start_stop_idempotent :
    (∀ m : Manager, Manager.start (Manager.start m) = Manager.start m) ∧
    (∀ m : Manager, Manager.stop (Manager.stop m) = Manager.stop m) ∧
    (∀ m : Manager, m.running = false → m.installed_ticks = 0 →
      (Manager.start (Manager.start m)).installed_ticks = 1 ∧
      (Manager.start m).installed_ticks = 1) ∧
    (∀ m : Manager, (Manager.stop m).running = false) ∧
    (∀ (m : Manager) (pol : Policy) (cl : Cluster),
      periodicStep (Manager.stop m) pol cl = cl) ∧
    (∀ (m : Manager) (pol : Policy) (cl : Cluster),
      (Manager.start m).running = true ∧
        periodicStep (Manager.start m) pol cl = tickEnact pol cl) := by
  refine ⟨?_, ?_, ?_, ?_, ?_, ?_⟩
  · intro m
    by_cases h : m.running <;> simp [Manager.start, h]
  · intro m
    by_cases h : m.running <;> simp [Manager.stop, h]
  · intro m h1 h2
    simp [Manager.start, h1, h2]
  · intro m
    by_cases h : m.running <;> simp [Manager.stop, h]
  · intro m pol cl
    have h : (Manager.stop m).running = false := by
      by_cases h : m.running <;> simp [Manager.stop, h]
    simp [periodicStep, h]
  · intro m pol cl
    have h : (Manager.start m).running = true := by
      by_cases h : m.running <;> simp [Manager.start, h]
    simp [periodicStep, h]

/-- C8 witness: the concrete fresh manager of test_start_stop. -/
theorem amm_start_stop_idempotent_witness :
    (Manager.start (Manager.start ⟨false, 2, 0⟩)).installed_ticks = 1 ∧
      (Manager.start ⟨false, 2, 0⟩).installed_ticks = 1 :=
  amm_start_stop_idempotent.2.2.1 ⟨false, 2, 0⟩ rfl rfl

/-- C9: `add_policy` surfaces a non-policy argument as a typed error
(`TypeError`) without running it; an actual policy is appended to the live
policy set. -/
theorem amm_add_policy_type_error :
    (∀ (m : ManagerP) (txt : String),
      add_policy m (PolicyArg.notPolicy txt) = Except.error "TypeError") ∧
    (∀ (m : ManagerP) (p : Policy),
      add_policy m (PolicyArg.policy p) = Except.ok ⟨m.policies ++ [p]⟩) :=
  ⟨fun _ _ => rfl, fun _ _ => rfl⟩

/-- C9 witness: the literal non-policy argument of test_add_policy. -/
theorem amm_add_policy_type_error_witness :
    add_policy ⟨[]⟩ (PolicyArg.notPolicy "not a policy") = Except.error "TypeError" :=
  amm_add_policy_type_error.1 ⟨[]⟩ "not a policy"

end AMM

namespace Deploy

/-- C10: `Cluster.close` / `Cluster._close` are idempotent: on an
already-closed cluster both return immediately leaving the state unchanged;
every completed `_close` ends with status `closed`; closing twice equals
closing once. -/
theorem cluster_close_idempotent :
    (∀ c : Cluster, c.status = Status.closed →
      close_seq c = c ∧ close c = (c, false)) ∧
    (∀ c : Cluster, (close_seq c).status = Status.closed) ∧
    (∀ c : Cluster, close_seq (close_seq c) = close_seq c) ∧
    (∀ c : Cluster, close (close c).1 = ((close c).1, false)) := by
  refine ⟨?_, ?_, ?_, ?_⟩
  · intro c h
    constructor
    · unfold close_seq
      rw [if_pos h]
    · unfold close
      rw [if_pos h]
  · intro c
    unfold close_seq
    by_cases h : c.status = Status.closed
    · rw [if_pos h]; exact h
    · rw [if_neg h]
  · intro c
    unfold close_seq
    by_cases h : c.status = Status.closed
    · rw [if_pos h, if_pos h]
    · rw [if_neg h]
      rfl
  · intro c
    unfold close
    by_cases h : c.status = Status.closed
    · rw [if_pos h]
      dsimp only
      rw [if_pos h]
    · rw [if_neg h]
      dsimp only
      have h2 : (close_seq c).status = Status.closed := by
        unfold close_seq
        rw [if_neg h]
      rw [if_pos h2]

/-- C10 witness: a concrete closed cluster object is untouched by `close`
and `_close`. -/
theorem cluster_close_idempotent_witness :
    close_seq ⟨Status.closed, false, true, true, true, true, true, true⟩
        = ⟨Status.closed, false, true, true, true, true, true, true⟩ ∧
      close ⟨Status.closed, false, true, true, true, true, true, true⟩
        = (⟨Status.closed, false, true, true, true, true, true, true⟩, false) :=
  cluster_close_idempotent.1 ⟨Status.closed, false, true, true, true, true, true, true⟩ rfl

end Deploy

namespace AMM

theorem isRunningW_spec {cl : Cluster} {a : Nat} (h : isRunningW cl a = true) :
    ∃ w ∈ cl.workers, w.address = a ∧ w.status = WStatus.running := by
  unfold isRunningW at h
  rcases hfw : findWorker cl a with _ | w
  · rw [hfw] at h; simp at h
  · rw [hfw] at h
    simp only [decide_eq_true_eq] at h
    have hmem : w ∈ cl.workers := List.mem_of_find?_eq_some hfw
    have hpred := List.find?_some hfw
    simp only [decide_eq_true_eq] at hpred
    exact ⟨w, hmem, hpred, h⟩

theorem not_mem_effective {ts : Task} {tt : TaskTrans} {a : Nat}
    (h1 : a ∉ ts.who_has) (h2 : a ∉ tt.padd) : a ∉ effective ts tt := by
  unfold effective
  intro hmem
  rcases List.mem_append.mp hmem with h | h
  · exact h1 (mem_curHolders h).1
  · exact h2 (List.mem_filter.mp h).1

/-- C3: an accepted replicate suggestion picks a running worker outside the
effective holder set, with the most free memory (lowest `optimistic`) among
the eligible pool; an empty pool is never accepted. -/
theorem amm_replicate_recipient_selection (cl : Cluster) (ts : Task)
    (cands : Option (List Nat)) (tt : TaskTrans) :
    (∀ a, find_recipient cl ts cands tt = Decision.accept a →
      (∃ w ∈ cl.workers, w.address = a ∧ w.status = WStatus.running) ∧
      a ∉ effective ts tt ∧
      ∀ b ∈ replPool cl ts cands tt, optimisticOf cl a ≤ optimisticOf cl b) ∧
    (replPool cl ts cands tt = [] →
      ∀ a, find_recipient cl ts cands tt ≠ Decision.accept a) := by
  constructor
  · intro a hacc
    rcases find_recipient_accept hacc with ⟨-, hmem, hbest⟩
    rcases mem_replPool hmem with ⟨hwho, hpadd, hrun⟩
    refine ⟨isRunningW_spec hrun, not_mem_effective hwho hpadd, ?_⟩
    intro b hb
    have hnb := hbest b hb
    simp only [replBetter, Bool.or_eq_false_iff, Bool.and_eq_false_iff,
      decide_eq_false_iff_not] at hnb
    omega
  · exact find_recipient_pool_empty

/-- C3 witness: test_replicate_to_worker_with_most_free_memory - the
recipient is running worker 3, outside the holder set, with the lowest
optimistic memory. -/
theorem amm_replicate_recipient_selection_witness :
    (∃ w ∈ repCl.workers, w.address = 3 ∧ w.status = WStatus.running) ∧
      3 ∉ effective repTask emptyTT ∧
      ∀ b ∈ replPool repCl repTask none emptyTT,
        optimisticOf repCl 3 ≤ optimisticOf repCl b :=
  (amm_replicate_recipient_selection repCl repTask none emptyTT).1 3 (by decide)

/-- C4 counterexample: in the snapshot of
test_drop_with_paused_workers_with_running_tasks_5 the arbiter accepts a
drop from running worker 2 although paused worker 1 lies in the suggestion's
pool `candidates ∩ H`, refuting the claim that an accepted drop picks a
paused/retiring pool member first. -/
theorem amm_drop_priority_cex :
    find_dropper uc5Cl uc5Task none emptyTT = Decision.accept 2 ∧
      1 ∈ dropPool uc5Task none emptyTT ∧
      pausedOrRetiringW uc5Cl 1 = true ∧
      pausedOrRetiringW uc5Cl 2 = false := by decide

/-- C4 amended: the fixed priority applies to the eligible pool - the pool
after removing holders executing a dependent and holders whose drop would
leave no running replica: any paused/retiring member of that pool is chosen
first, otherwise the eligible holder with the least free memory (highest
`optimistic`); with no eligible holder the suggestion is rejected. -/
theorem amm_drop_priority (cl : Cluster) (ts : Task) (cands : Option (List Nat))
    (tt : TaskTrans) :
    (∀ a, find_dropper cl ts cands tt = Decision.accept a →
      a ∈ dropPoolSafe cl ts cands tt ∧
      ((∃ b ∈ dropPoolSafe cl ts cands tt, pausedOrRetiringW cl b = true) →
        pausedOrRetiringW cl a = true) ∧
      ((∀ b ∈ dropPoolSafe cl ts cands tt, pausedOrRetiringW cl b = false) →
        ∀ b ∈ dropPoolSafe cl ts cands tt, optimisticOf cl b ≤ optimisticOf cl a)) ∧
    (dropPoolSafe cl ts cands tt = [] →
      ∀ a, find_dropper cl ts cands tt ≠ Decision.accept a) := by
  constructor
  · intro a hacc
    rcases find_dropper_accept hacc with ⟨-, -, hmem, hbest⟩
    refine ⟨hmem, ?_, ?_⟩
    · rintro ⟨b, hb, hbp⟩
      by_contra hap
      have hap' : pausedOrRetiringW cl a = false := by simpa using hap
      have hnb := hbest b hb
      simp [dropBetter, pRank, hbp, hap'] at hnb
    · intro hall b hb
      have hnb := hbest b hb
      have ha0 : pausedOrRetiringW cl a = false := hall a hmem
      have hb0 : pausedOrRetiringW cl b = false := hall b hb
      simp [dropBetter, pRank, ha0, hb0] at hnb
      omega
  · exact find_dropper_safe_empty

/-- C4 witness: on the snapshot of the counterexample all eligible holders
are running, and the chosen worker 2 has the maximal optimistic memory among
them. -/
theorem amm_drop_priority_witness :
    2 ∈ dropPoolSafe uc5Cl uc5Task none emptyTT ∧
      ∀ b ∈ dropPoolSafe uc5Cl uc5Task none emptyTT,
        optimisticOf uc5Cl b ≤ optimisticOf uc5Cl 2 := by
  have h := (amm_drop_priority uc5Cl uc5Task none emptyTT).1 2 (by decide)
  exact ⟨h.1, h.2.2 (by decide)⟩

end AMM

namespace AMM

/-- C2 counterexample: in test_drop_with_waiter after `y1` finished, the
arbiter accepts dropping holder 1 even though every holder left in the
effective replica set is processing an unfinished dependent - refuting the
rule "a drop whose acceptance would leave no healthy, non-waiter holder is
rejected". -/
theorem amm_waiter_rule_cex :
    find_dropper dwCl dwTask none emptyTT = Decision.accept 1 ∧
      dwTask.waiters ≠ [] ∧
      (∀ b ∈ effective dwTask ⟨[], [1]⟩, hasWaiterOn dwCl dwTask b = true) := by
  decide

/-- C2 amended: a holder that is currently processing an unfinished
dependent of the task is never chosen as drop source, and a running holder
is only dropped when another running holder remains; hence a task that has
a running (non-paused, non-retiring) holder keeps at least one through any
tick.  Once a dependent finishes, its now waiter-free holder can be dropped
(the concrete conjunct). -/
theorem amm_waiter_drop_protection (cl : Cluster) (hwf : Wf cl) :
    (∀ (ts : Task) (tt : TaskTrans) (cands : Option (List Nat)) (a : Nat),
      find_dropper cl ts cands tt = Decision.accept a →
      hasWaiterOn cl ts a = false ∧
      (isRunningW cl a = true →
        ∃ b ∈ curHolders ts ⟨tt.padd, a :: tt.prem⟩, isRunningW cl b = true)) ∧
    (∀ (ss : List Suggestion), ∀ ts ∈ cl.tasks,
      (∃ b ∈ ts.who_has, isRunningW cl b = true) →
      ∃ b ∈ curHolders ts (run_once cl ss ts.key), isRunningW cl b = true) ∧
    find_dropper dwCl dwTask none emptyTT = Decision.accept 1 := by
  refine ⟨?_, ?_, by decide⟩
  · intro ts tt cands a hacc
    rcases find_dropper_accept hacc with ⟨-, -, hmem, -⟩
    rcases mem_dropPoolSafe hmem with ⟨hcur, hnw, hsafe⟩
    refine ⟨hnw, ?_⟩
    intro hrun
    rcases hsafe hrun with ⟨b, hb, hba, hbr⟩
    have hrw : curHolders ts ⟨tt.padd, a :: tt.prem⟩
        = (curHolders ts tt).filter (fun x => decide (x ≠ a)) :=
      curHolders_prem_cons ts _ tt.padd _ a
    rw [hrw]
    exact ⟨b, List.mem_filter.mpr ⟨hb, by simpa using hba⟩, hbr⟩
  · intro ss ts hts hne
    exact run_once_running_ne hwf hts hne

/-- C2 witness: instances of the amended rule on the test_drop_with_waiter
snapshot: the accepted dropper 1 is waiter-free and leaves running holder 2,
and a full tick keeps a running holder. -/
theorem amm_waiter_drop_protection_witness :
    (hasWaiterOn dwCl dwTask 1 = false ∧
      (isRunningW dwCl 1 = true →
        ∃ b ∈ curHolders dwTask ⟨[], [1]⟩, isRunningW dwCl b = true)) ∧
    ∃ b ∈ curHolders dwTask
        (run_once dwCl [⟨Op.drop, 100, none⟩] dwTask.key),
      isRunningW dwCl b = true := by
  have h := amm_waiter_drop_protection dwCl (by decide)
  refine ⟨?_, h.2.1 [⟨Op.drop, 100, none⟩] dwTask (by decide) (by decide)⟩
  have h2 := h.1 dwTask emptyTT none 1 (by decide)
  exact h2

/-- C5: a policy yielding `n` nil-candidate drop suggestions for one task
whose `k` holders are all running and free of executing dependents gets
exactly `min n (k-1)` acceptances in a tick, and every other yield is
rejected with reason "less than 2 replicas exist" - the arbiter
short-circuits without the policy tracking accepted counts. -/
theorem amm_drop_short_circuit (cl : Cluster) (ts : Task) (n : Nat)
    (hfind : findTask cl ts.key = some ts)
    (hmem : ts.state = TState.memory)
    (hnd : ts.who_has.Nodup)
    (hrun : ∀ a ∈ ts.who_has, isRunningW cl a = true)
    (hnw : ∀ a ∈ ts.who_has, hasWaiterOn cl ts a = false)
    (hne : ts.who_has ≠ []) :
    ((decisionsOf cl (List.replicate n ⟨Op.drop, ts.key, none⟩)).countP
        Decision.isAccept = min n (ts.who_has.length - 1)) ∧
    (∀ d ∈ decisionsOf cl (List.replicate n ⟨Op.drop, ts.key, none⟩),
        d.isAccept = true ∨ d = Decision.reject (some "less than 2 replicas exist")) := by
  have h0 : curHolders ts (emptyTrans ts.key) ≠ [] := by
    show curHolders ts emptyTT ≠ []
    rw [curHolders_emptyTT]
    exact hne
  have h := demo_drop_seq hfind hmem hnd hrun hnw n emptyTrans h0
  have hcur : curHolders ts (emptyTrans ts.key) = ts.who_has := curHolders_emptyTT ts
  rw [hcur] at h
  exact h

/-- C5 witness: test_drop - five drops against four replicas give three
acceptances, the remaining two rejected with "less than 2 replicas exist". -/
theorem amm_drop_short_circuit_witness :
    ((decisionsOf c5Cl (List.replicate 5 ⟨Op.drop, 100, none⟩)).countP
        Decision.isAccept = 3) ∧
    (∀ d ∈ decisionsOf c5Cl (List.replicate 5 ⟨Op.drop, 100, none⟩),
        d.isAccept = true ∨ d = Decision.reject (some "less than 2 replicas exist")) := by
  have h := amm_drop_short_circuit c5Cl c5Task 5 (by decide) (by decide)
    (by decide) (by decide) (by decide) (by decide)
  exact h

end AMM

namespace AMM

theorem iterTick_demo_fix : ∀ k, iterTick demoPol k demoTick1 = demoTick1 := by
  intro k
  induction k with
  | zero => rfl
  | succ k ih =>
    show iterTick demoPol k (tickEnact demoPol demoTick1) = demoTick1
    rw [show tickEnact demoPol demoTick1 = demoTick1 from by decide]
    exact ih

/-- C1: for every task the effective replica set stays non-empty within a
tick, `who_has` stays non-empty across any number of enacted ticks of any
policy, and in the two-replica DemoPolicy scenario with ten drop requests
exactly one drop is accepted per tick, repeated ticks reproduce the same
single enacted drop, and one replica survives forever. -/
theorem amm_last_replica_preserved (cl : Cluster) (pol : Policy) (hg : GoodCl cl) :
    (∀ ss : List Suggestion, ∀ ts ∈ cl.tasks,
      effective ts (run_once cl ss ts.key) ≠ []) ∧
    (∀ n, ∀ ts ∈ (iterTick pol n cl).tasks, ts.who_has ≠ []) ∧
    ((decisionsOf demoCl (demoPol demoCl)).countP Decision.isAccept = 1 ∧
      ((run_once demoCl (demoPol demoCl)) 100).prem.length = 1 ∧
      (∀ m, 1 ≤ m → iterTick demoPol m demoCl = demoTick1) ∧
      ∀ ts ∈ demoTick1.tasks, ts.who_has.length = 1) := by
  refine ⟨?_, ?_, by decide, by decide, ?_, by decide⟩
  · intro ss ts hts
    exact run_once_effective_ne hg.1 hts (hg.2 ts hts)
  · intro n ts hts
    exact (iterTick_good hg n).2 ts hts
  · intro m hm
    match m, hm with
    | Nat.succ k, _ =>
      show iterTick demoPol k (tickEnact demoPol demoCl) = demoTick1
      exact iterTick_demo_fix k

/-- C1 witness: the DemoPolicy snapshot itself is wellformed and its tick
keeps the effective replica set of `x` non-empty. -/
theorem amm_last_replica_preserved_witness :
    GoodCl demoCl ∧
      effective demoTask (run_once demoCl (demoPol demoCl) demoTask.key) ≠ [] :=
  ⟨by decide,
    (amm_last_replica_preserved demoCl demoPol (by decide)).1 (demoPol demoCl)
      demoTask (by decide)⟩

end AMM

namespace AMM

theorem statusOf_filter_keep {c : Cluster} {retired : List Nat} {a : Nat}
    (h : a ∉ retired) :
    statusOf { c with
        workers := c.workers.filter (fun w => decide (w.address ∉ retired)) } a
      = statusOf c a := by
  unfold statusOf findWorker
  dsimp only
  rw [find?_filter_keep]
  intro w hw
  simp only [decide_eq_true_eq] at hw
  simp only [decide_eq_true_eq]
  rw [hw]
  exact h

theorem findWorker_filter_drop {c : Cluster} {retired : List Nat} {a : Nat}
    (h : a ∈ retired) :
    findWorker { c with
        workers := c.workers.filter (fun w => decide (w.address ∉ retired)) } a
      = none := by
  unfold findWorker
  dsimp only
  apply find?_filter_drop
  intro w hw
  simp only [decide_eq_true_eq] at hw
  simp only [decide_eq_false_iff_not, not_not]
  rw [hw]
  exact h

/-- C6: `retire_workers` returns the subset of the input addresses that
actually drained; every target that could not be drained is absent from the
result, has its status restored to `running` in the final snapshot, and no
RetireWorker policy stays installed; with `remove` set, retired workers are
deregistered.  The concrete conjuncts replay test_RetireWorker_no_recipients
and test_RetireWorker_all_recipients_are_paused. -/
theorem amm_retire_workers_result (cl : Cluster) (addrs : List Nat) (rm : Bool)
    (fuel : Nat) (hnd : addrs.Nodup) (hex : ∀ a ∈ addrs, AddrIn cl a) :
    ((retire_workers cl addrs rm fuel).retired ⊆ addrs) ∧
    (∀ a ∈ addrs, a ∉ (retire_workers cl addrs rm fuel).retired →
      statusOf (retire_workers cl addrs rm fuel).cluster a = some WStatus.running) ∧
    ((retire_workers cl addrs rm fuel).policies = []) ∧
    (rm = true → ∀ a ∈ (retire_workers cl addrs rm fuel).retired,
      findWorker (retire_workers cl addrs rm fuel).cluster a = none) ∧
    ((retire_workers retACl [1, 2, 3, 4] true 4).retired = [1, 3] ∧
      statusOf (retire_workers retACl [1, 2, 3, 4] true 4).cluster 2
        = some WStatus.running ∧
      statusOf (retire_workers retACl [1, 2, 3, 4] true 4).cluster 4
        = some WStatus.running ∧
      (retire_workers retACl [1, 2, 3, 4] true 4).policies = []) ∧
    ((retire_workers retBCl [1] true 4).retired = [] ∧
      statusOf (retire_workers retBCl [1] true 4).cluster 1
        = some WStatus.running ∧
      (retire_workers retBCl [1] true 4).policies = []) := by
  have hret : (retire_workers cl addrs rm fuel).retired
      = addrs.filter (fun a => decide (hasWhat (retireDrained cl addrs fuel) a = [])) :=
    rfl
  have hmem_failed : ∀ a ∈ addrs, a ∉ (retire_workers cl addrs rm fuel).retired →
      a ∈ addrs.filter (fun a =>
        decide (hasWhat (retireDrained cl addrs fuel) a ≠ [])) := by
    intro a ha hnr
    rw [hret] at hnr
    apply List.mem_filter.mpr
    refine ⟨ha, ?_⟩
    simp only [decide_eq_true_eq]
    intro hempty
    exact hnr (List.mem_filter.mpr ⟨ha, by simp [hempty]⟩)
  have hst3 : ∀ a ∈ addrs, a ∉ (retire_workers cl addrs rm fuel).retired →
      statusOf ((addrs.filter (fun a =>
          decide (hasWhat (retireDrained cl addrs fuel) a ≠ []))).foldl
          (fun c a => setStatus c a WStatus.running) (retireDrained cl addrs fuel)) a
        = some WStatus.running := by
    intro a ha hnr
    exact statusOf_foldl_mem _ _ a (hnd.filter _) (hmem_failed a ha hnr)
      (addrIn_retireDrained (hex a ha))
  refine ⟨?_, ?_, ?_, ?_, ?_, ?_⟩
  · intro a ha
    rw [hret] at ha
    exact (List.mem_filter.mp ha).1
  · intro a ha hnr
    have hnr' : a ∉ addrs.filter (fun a =>
        decide (hasWhat (retireDrained cl addrs fuel) a = [])) := by
      rw [hret] at hnr
      exact hnr
    have hgen := hst3 a ha hnr
    rcases hrm : rm with _ | _
    · exact hgen
    · exact (statusOf_filter_keep hnr').trans hgen
  · show ((addrs.filter (fun a => decide (a ∉ addrs.filter (fun a =>
        decide (hasWhat (retireDrained cl addrs fuel) a = []))))).filter
        (fun a => decide (a ∉ addrs.filter (fun a =>
          decide (hasWhat (retireDrained cl addrs fuel) a ≠ []))))) = []
    rw [List.filter_eq_nil_iff]
    intro a ha
    rcases List.mem_filter.mp ha with ⟨haddr, hnotr⟩
    simp only [decide_eq_true_eq] at hnotr ⊢
    intro hnotf
    exact hnotf (hmem_failed a haddr (by rw [hret]; exact hnotr))
  · intro hrm a ha
    subst hrm
    rw [hret] at ha
    exact findWorker_filter_drop ha
  · refine ⟨by decide, by decide, by decide, by decide⟩
  · refine ⟨by decide, by decide, by decide⟩

/-- C6 witness: the no-recipients scenario - workers 1 and 3 retire, worker
2 failed to drain and is restored to running. -/
theorem amm_retire_workers_result_witness :
    ((retire_workers retACl [1, 2, 3, 4] true 4).retired ⊆ [1, 2, 3, 4]) ∧
      statusOf (retire_workers retACl [1, 2, 3, 4] true 4).cluster 2
        = some WStatus.running ∧
      (retire_workers retACl [1, 2, 3, 4] true 4).policies = [] := by
  have h := amm_retire_workers_result retACl [1, 2, 3, 4] true 4 (by decide)
    (by decide)
  exact ⟨h.1, h.2.1 2 (by decide) (by decide), h.2.2.1⟩

end AMM
